import Mathlib

/-!
Verification model of the wire-bundle optimizer (src/optimizer.py, class
WireBundleOptimizer).  Python floats are modelled exactly: values that the
code only ever combines with field arithmetic are `ℚ`, values produced by
square roots and trigonometric functions live in `ℝ`.  The external SLSQP
solver (scipy.optimize.minimize) and the random number generator are not
part of the repository: a single-start solve is an oracle parameter
`solver : List ℝ → SolveResult`, and the random draws of solve_multi are an
oracle `draws : ℕ → Draw` supplying, per attempt and per disk, the uniform
point in the square and the angle used for near-origin repairs.
-/

namespace WireBundle

/-- Euclidean norm of a 2D point, np.linalg.norm on one row. -/
noncomputable def norm2 (p : ℝ × ℝ) : ℝ := Real.sqrt (p.1 ^ 2 + p.2 ^ 2)

/-- One row of np.triu_indices(n, 1): the pairs (i, j) with i < j < n,
second component increasing. -/
def rowPairs (n i : ℕ) : List (ℕ × ℕ) :=
  (List.range' (i + 1) (n - (i + 1))).map (fun j => (i, j))

/-- Rows i, i+1, ... (fuel many) of the upper-triangle index set. -/
def triuFrom (n : ℕ) : ℕ → ℕ → List (ℕ × ℕ)
  | 0, _ => []
  | fuel + 1, i => rowPairs n i ++ triuFrom n fuel (i + 1)

/-- np.triu_indices(n, 1), with i_idx and j_idx zipped into one list of
pairs: row-major, i.e. lexicographic over i < j. -/
def triu (n : ℕ) : List (ℕ × ℕ) := triuFrom n n 0

/-- Strict lexicographic order on index pairs. -/
def pairLexLt (p q : ℕ × ℕ) : Prop := p.1 < q.1 ∨ (p.1 = q.1 ∧ p.2 < q.2)

/-- The per-instance state set up by WireBundleOptimizer.__init__ (lines
14-40).  positions and outer_radius are the mutable caches; positions is an
Option because solve_multi assigns Python None to it when no attempt is
feasible, and outer_radius is WithTop ℚ with ⊤ standing for np.inf. -/
structure Optimizer where
  radii : List ℚ
  n : ℕ
  margin : ℚ
  inner_exclusion_radius : ℚ
  r_eff : List ℚ
  n_vars : ℕ
  pairs : List (ℕ × ℕ)
  pair_r_eff : List ℚ
  positions : Option (List (ℚ × ℚ))
  outer_radius : WithTop ℚ

/-- WireBundleOptimizer.__init__: records the inputs and precomputes
r_eff = radii * (1 + margin), n_vars = 2n + 1, the pair index list and
pair_r_eff = r_eff[i_idx] + r_eff[j_idx].  The constructor performs no
input validation whatsoever: every input produces a handle. -/
def init (radii : List ℚ) (margin : ℚ) (inner_exclusion_radius : ℚ) : Optimizer :=
  let r_eff := radii.map (fun r => r * (1 + margin))
  let n := radii.length
  let pairs := triu n
  { radii := radii
    n := n
    margin := margin
    inner_exclusion_radius := inner_exclusion_radius
    r_eff := r_eff
    n_vars := n * 2 + 1
    pairs := pairs
    pair_r_eff := pairs.map (fun p => r_eff.getD p.1 0 + r_eff.getD p.2 0)
    positions := some (List.replicate n (0, 0))
    outer_radius := ((0 : ℚ) : WithTop ℚ) }

/-- Center of disk i inside a decision vector x: for a vector of length
2n + 1 and i < n this is row i of x[:-1].reshape(n, 2) in _unpack. -/
def coord (x : List ℝ) (i : ℕ) : ℝ × ℝ := (x.getD (2 * i) 0, x.getD (2 * i + 1) 0)

/-- The outer radius R = x[-1] of _unpack. -/
def unpackR (x : List ℝ) : ℝ := x.getLastD 0

/-- _objective: the last entry of the decision vector. -/
def objective (x : List ℝ) : ℝ := x.getLastD 0

/-- _grad_objective as a function of the column index: zeros except a one
in the last slot. -/
def gradObjective (st : Optimizer) (c : ℕ) : ℝ := if c = st.n_vars - 1 then 1 else 0

/-- _constraint_outer: g_i = R - (norm c_i + r_eff_i) for i < n. -/
noncomputable def constraintOuter (st : Optimizer) (x : List ℝ) : List ℝ :=
  (List.range st.n).map (fun i => unpackR x - (norm2 (coord x i) + ((st.r_eff.getD i 0 : ℚ) : ℝ)))

/-- _constraint_pairs: one entry per precomputed pair, the distance of the
two centers minus the precomputed pair_r_eff entry. -/
noncomputable def constraintPairs (st : Optimizer) (x : List ℝ) : List ℝ :=
  List.zipWith (fun p pr => norm2 (coord x p.1 - coord x p.2) - ((pr : ℚ) : ℝ))
    st.pairs st.pair_r_eff

/-- _constraint_inner_hole: trivially satisfied ones when the exclusion
radius is not positive, else norm c_i - (inner_exclusion_radius + r_eff_i). -/
noncomputable def constraintInnerHole (st : Optimizer) (x : List ℝ) : List ℝ :=
  if st.inner_exclusion_radius ≤ 0 then List.replicate st.n 1
  else (List.range st.n).map
    (fun i => norm2 (coord x i) - ((st.inner_exclusion_radius + st.r_eff.getD i 0 : ℚ) : ℝ))

/-- The pair consumed by row k of the pairwise constraint and Jacobian. -/
def pairAt (st : Optimizer) (k : ℕ) : ℕ × ℕ := st.pairs.getD k (0, 0)

/-- The guarded normalized direction used by the Jacobians: component j of
coords/norm computed by np.divide with where=norms>0 and an output of
zeros, so a zero norm leaves the zero in place. -/
noncomputable def scaledDir1 (p : ℝ × ℝ) : ℝ :=
  if 0 < norm2 p then p.1 / norm2 p else 0

/-- Second component of the guarded normalized direction. -/
noncomputable def scaledDir2 (p : ℝ × ℝ) : ℝ :=
  if 0 < norm2 p then p.2 / norm2 p else 0

/-- _jac_constraint_outer as a function of row and column.  The matrix is
assembled from zeros; row r gets -scaled at its coordinate columns and
every row gets 1.0 in the last column. -/
noncomputable def jacOuter (st : Optimizer) (x : List ℝ) (r c : ℕ) : ℝ :=
  if r < st.n then
    if c = 2 * r then -scaledDir1 (coord x r)
    else if c = 2 * r + 1 then -scaledDir2 (coord x r)
    else if c = st.n_vars - 1 then 1
    else 0
  else 0

/-- _jac_constraint_pairs as a function of row and column: row k places
grad at columns 2i, 2i+1 and -grad at 2j, 2j+1 for (i, j) = pairs[k],
where grad is diffs/norm guarded to zero at zero norm. -/
noncomputable def jacPairs (st : Optimizer) (x : List ℝ) (k c : ℕ) : ℝ :=
  if k < st.pairs.length then
    if c = 2 * (pairAt st k).1 then
      scaledDir1 (coord x (pairAt st k).1 - coord x (pairAt st k).2)
    else if c = 2 * (pairAt st k).1 + 1 then
      scaledDir2 (coord x (pairAt st k).1 - coord x (pairAt st k).2)
    else if c = 2 * (pairAt st k).2 then
      -scaledDir1 (coord x (pairAt st k).1 - coord x (pairAt st k).2)
    else if c = 2 * (pairAt st k).2 + 1 then
      -scaledDir2 (coord x (pairAt st k).1 - coord x (pairAt st k).2)
    else 0
  else 0

/-- _jac_constraint_inner_hole as a function of row and column: the zero
matrix when the exclusion radius is not positive or n = 0, else row r
carries scaled at its coordinate columns 2r, 2r+1. -/
noncomputable def jacInnerHole (st : Optimizer) (x : List ℝ) (r c : ℕ) : ℝ :=
  if st.inner_exclusion_radius ≤ 0 ∨ st.n = 0 then 0
  else if r < st.n then
    if c = 2 * r then scaledDir1 (coord x r)
    else if c = 2 * r + 1 then scaledDir2 (coord x r)
    else 0
  else 0

/-- Maximum of a list of rationals, 0 for the empty list.  Models the value
`self.r_eff.max() if self.n else 0.0` used by _initial_guess_spiral. -/
def maxD (l : List ℚ) : ℚ :=
  match l with
  | [] => 0
  | x :: xs => xs.foldl max x

/-- np.argsort(-self.radii): the disk indices in decreasing raw-radius
order.  numpy's quicksort leaves the order of tied radii unspecified; a
stable insertion sort fixes one admissible tie order. -/
def spiralOrder (st : Optimizer) : List ℕ :=
  List.insertionSort (fun i j => st.radii.getD j 0 ≤ st.radii.getD i 0) (List.range st.n)

/-- The starting radius of the spiral: inner_exclusion_radius + max r_eff. -/
def spiralBase (st : Optimizer) : ℚ := st.inner_exclusion_radius + maxD st.r_eff

/-- The successive values of the loop variable `radius` in
_initial_guess_spiral: starting from the base, each visited disk first adds
radii[idx] * (1.5 + margin) and is then placed at the updated radius. -/
def runningRadii (radii : List ℚ) (margin : ℚ) : ℚ → List ℕ → List ℚ
  | _, [] => []
  | radius, idx :: rest =>
    (radius + radii.getD idx 0 * (3 / 2 + margin)) ::
      runningRadii radii margin (radius + radii.getD idx 0 * (3 / 2 + margin)) rest

/-- The running spiral radius at which the k-th visited disk is placed. -/
def spiralRunningRadii (st : Optimizer) : List ℚ :=
  runningRadii st.radii st.margin (spiralBase st) (spiralOrder st)

/-- The angle increment 2π / max(n, 1) of _initial_guess_spiral. -/
noncomputable def spiralStep (st : Optimizer) : ℝ := 2 * Real.pi / ((max st.n 1 : ℕ) : ℝ)

/-- Center assigned by the k-th loop iteration of _initial_guess_spiral:
the loop's angle starts at 0 and gains one step per iteration, so the k-th
placement happens at angle k * step and at the k-th running radius. -/
noncomputable def spiralPlacement (st : Optimizer) (k : ℕ) : ℝ × ℝ :=
  ((((spiralRunningRadii st).getD k 0 : ℚ) : ℝ) * Real.cos (k * spiralStep st),
   (((spiralRunningRadii st).getD k 0 : ℚ) : ℝ) * Real.sin (k * spiralStep st))

/-- Final content of coords[i] after the loop of _initial_guess_spiral: the
order list visits every disk index exactly once, so the single write to
coords[idx] happens at loop position indexOf idx. -/
noncomputable def spiralCoordOfDisk (st : Optimizer) (i : ℕ) : ℝ × ℝ :=
  spiralPlacement st ((spiralOrder st).indexOf i)

/-- The outer-radius seed: final loop radius + max r_eff, or the base for
zero disks. -/
def spiralRSeed (st : Optimizer) : ℚ :=
  if st.n = 0 then spiralBase st
  else (spiralRunningRadii st).getLastD (spiralBase st) + maxD st.r_eff

/-- coords.flatten(): x0, y0, x1, y1, ... -/
def flattenCoords : List (ℝ × ℝ) → List ℝ
  | [] => []
  | p :: ps => p.1 :: p.2 :: flattenCoords ps

/-- np.concatenate([coords.flatten(), [R]]). -/
def packVec (cs : List (ℝ × ℝ)) (R : ℝ) : List ℝ := flattenCoords cs ++ [R]

/-- The full decision vector returned by _initial_guess_spiral. -/
noncomputable def spiralGuess (st : Optimizer) : List ℝ :=
  packVec ((List.range st.n).map (spiralCoordOfDisk st)) ((spiralRSeed st : ℚ) : ℝ)

/-- One attempt's random data inside solve_multi: per disk, the point drawn
uniformly in the square, and the angle drawn in case that point is within
numerical noise of the origin. -/
structure Draw where
  point : ℕ → ℝ × ℝ
  theta : ℕ → ℝ

/-- The per-disk repair step of solve_multi (lines 239-253): a draw whose
norm is below its minimum ring is pushed radially out to exactly the ring,
using a fresh random direction when the norm is below 1e-9 (the code sets
dirs[tiny] to the unit vector of theta and norm_mask[tiny] to one, so the
subsequent division leaves that unit vector unchanged). -/
noncomputable def repairDisk (ring : ℝ) (c : ℝ × ℝ) (θ : ℝ) : ℝ × ℝ :=
  if norm2 c < ring then
    if norm2 c < 1 / 10 ^ 9 then (Real.cos θ * ring, Real.sin θ * ring)
    else (c.1 / norm2 c * ring, c.2 / norm2 c * ring)
  else c

/-- The minimum feasible ring of disk i: inner_exclusion_radius + r_eff_i. -/
def minRing (st : Optimizer) (i : ℕ) : ℚ := st.inner_exclusion_radius + st.r_eff.getD i 0

/-- The repaired random centers of one attempt of solve_multi. -/
noncomputable def randomCoords (st : Optimizer) (d : Draw) : List (ℝ × ℝ) :=
  (List.range st.n).map (fun i => repairDisk ((minRing st i : ℚ) : ℝ) (d.point i) (d.theta i))

/-- One random initial guess x0_rand: repaired centers plus the spiral
radius seed R0. -/
noncomputable def randomGuess (st : Optimizer) (R0 : ℚ) (d : Draw) : List ℝ :=
  packVec (randomCoords st d) ((R0 : ℚ) : ℝ)

/-- Output of one single-start solve (self.solve): unpacked coordinates,
optimized radius, and the solver's success flag.  The scipy result values
are IEEE doubles, hence rationals. -/
structure SolveResult where
  coords : List (ℚ × ℚ)
  R : ℚ
  success : Bool
deriving DecidableEq

/-- One iteration of the reduction loop of solve_multi (lines 266-269): a
result strictly improves the running best exactly when it is successful
and its R is below the current best radius. -/
def selectStep (best : Option (List (ℚ × ℚ)) × WithTop ℚ) (r : SolveResult) :
    Option (List (ℚ × ℚ)) × WithTop ℚ :=
  if r.success = true ∧ ((r.R : ℚ) : WithTop ℚ) < best.2 then
    (some r.coords, ((r.R : ℚ) : WithTop ℚ))
  else best

/-- The reduction loop of solve_multi (lines 264-269): best_radius starts
at np.inf (⊤) and best_coords at None. -/
def selectBest (results : List SolveResult) : Option (List (ℚ × ℚ)) × WithTop ℚ :=
  results.foldl selectStep (none, ⊤)

/-- Number of random guesses generated by solve_multi: n_initializations - 1
guarded by the `if n_initializations > 1` test. -/
def numRandom (n_init : ℤ) : ℕ := if 1 < n_init then (n_init - 1).toNat else 0

/-- The list initial_guesses of solve_multi: the spiral guess followed by
the random guesses, each built from R0, the last entry of the spiral guess. -/
noncomputable def initialGuesses (st : Optimizer) (n_init : ℤ) (draws : ℕ → Draw) :
    List (List ℝ) :=
  spiralGuess st ::
    (List.range (numRandom n_init)).map (fun k => randomGuess st (spiralRSeed st) (draws k))

/-- Everything one call of solve_multi produces: the generated guesses, the
per-attempt results, the progress-callback invocations (one (idx, total)
event after each completed attempt), the returned best coordinates and
radius, and the instance state after the call. -/
structure MultiRun where
  guesses : List (List ℝ)
  results : List SolveResult
  events : List (ℕ × ℕ)
  best_coords : Option (List (ℚ × ℚ))
  best_R : WithTop ℚ
  final : Optimizer

/-- solve_multi (lines 217-273): generate the guesses, run one solve per
guess, report progress after each attempt, reduce to the best feasible
result and cache it in positions / outer_radius.  The function is total:
the no-feasible-attempt case yields (none, ⊤), never an exception. -/
noncomputable def solveMulti (st : Optimizer) (n_init : ℤ) (solver : List ℝ → SolveResult)
    (draws : ℕ → Draw) : MultiRun :=
  let guesses := initialGuesses st n_init draws
  let results := guesses.map solver
  { guesses := guesses
    results := results
    events := (List.range guesses.length).map (fun k => (k + 1, guesses.length))
    best_coords := (selectBest results).1
    best_R := (selectBest results).2
    final := { st with
      positions := (selectBest results).1
      outer_radius := (selectBest results).2 } }

/-- A trivial draw oracle for concrete instantiations. -/
noncomputable def demoDraw : Draw := { point := fun _ => ((0 : ℝ), (0 : ℝ)), theta := fun _ => 0 }

/-- A constant draw sequence for concrete instantiations. -/
noncomputable def demoDraws : ℕ → Draw := fun _ => demoDraw

/-- A solver oracle that always reports one feasible layout. -/
def demoSolverOk : List ℝ → SolveResult :=
  fun _ => { coords := [((0 : ℚ), (0 : ℚ))], R := 2, success := true }

/-- A solver oracle that always fails. -/
def demoSolverFail : List ℝ → SolveResult :=
  fun _ => { coords := [], R := 0, success := false }

/-! Helper lemmas about the Euclidean norm. -/

theorem norm2_nonneg (p : ℝ × ℝ) : 0 ≤ norm2 p := Real.sqrt_nonneg _

theorem norm2_zero : norm2 ((0 : ℝ), (0 : ℝ)) = 0 := by
  simp [norm2]

theorem norm2_scale (a b m : ℝ) : norm2 (a * m, b * m) = norm2 (a, b) * |m| := by
  unfold norm2
  have h : (a * m) ^ 2 + (b * m) ^ 2 = (a ^ 2 + b ^ 2) * m ^ 2 := by ring
  rw [h, Real.sqrt_mul (by positivity), Real.sqrt_sq_eq_abs]

theorem norm2_scale_left (m a b : ℝ) : norm2 (m * a, m * b) = |m| * norm2 (a, b) := by
  rw [mul_comm m a, mul_comm m b, norm2_scale, mul_comm]

theorem norm2_cos_sin (θ : ℝ) : norm2 (Real.cos θ, Real.sin θ) = 1 := by
  unfold norm2
  rw [Real.cos_sq_add_sin_sq, Real.sqrt_one]

theorem scaledDir1_zero : scaledDir1 ((0 : ℝ), (0 : ℝ)) = 0 := by
  unfold scaledDir1
  rw [norm2_zero]
  simp

theorem scaledDir2_zero : scaledDir2 ((0 : ℝ), (0 : ℝ)) = 0 := by
  unfold scaledDir2
  rw [norm2_zero]
  simp

theorem norm2_unit (p : ℝ × ℝ) (h : 0 < norm2 p) :
    norm2 (p.1 / norm2 p, p.2 / norm2 p) = 1 := by
  have h1 : p.1 / norm2 p = p.1 * (norm2 p)⁻¹ := div_eq_mul_inv _ _
  have h2 : p.2 / norm2 p = p.2 * (norm2 p)⁻¹ := div_eq_mul_inv _ _
  rw [h1, h2, norm2_scale, abs_of_nonneg (inv_nonneg.2 h.le)]
  have hp : norm2 (p.1, p.2) = norm2 p := rfl
  rw [hp, mul_inv_cancel₀ h.ne']

/-! Helper lemmas about the per-disk repair step of solve_multi. -/

theorem repairDisk_tiny (ring : ℝ) (c : ℝ × ℝ) (θ : ℝ) (hc : norm2 c < ring)
    (ht : norm2 c < 1 / 10 ^ 9) :
    repairDisk ring c θ = (Real.cos θ * ring, Real.sin θ * ring) := by
  unfold repairDisk
  rw [if_pos hc, if_pos ht]

theorem repairDisk_norm_eq (ring : ℝ) (c : ℝ × ℝ) (θ : ℝ) (h : 0 ≤ ring)
    (hc : norm2 c < ring) : norm2 (repairDisk ring c θ) = ring := by
  unfold repairDisk
  rw [if_pos hc]
  by_cases ht : norm2 c < 1 / 10 ^ 9
  · rw [if_pos ht, norm2_scale, norm2_cos_sin, one_mul, abs_of_nonneg h]
  · rw [if_neg ht]
    have hpos : 0 < norm2 c := lt_of_lt_of_le (by norm_num) (not_lt.1 ht)
    rw [norm2_scale, abs_of_nonneg h]
    have hu : norm2 (c.1 / norm2 c, c.2 / norm2 c) = 1 := norm2_unit c hpos
    rw [hu, one_mul]

theorem repairDisk_norm_ge (ring : ℝ) (c : ℝ × ℝ) (θ : ℝ) (h : 0 ≤ ring) :
    ring ≤ norm2 (repairDisk ring c θ) := by
  by_cases hc : norm2 c < ring
  · rw [repairDisk_norm_eq ring c θ h hc]
  · unfold repairDisk
    rw [if_neg hc]
    exact not_lt.1 hc

/-! Helper lemmas about list maxima and default indexing. -/

theorem foldl_max_init (l : List ℚ) : ∀ a : ℚ, a ≤ l.foldl max a := by
  induction l with
  | nil => intro a; exact le_refl a
  | cons b l ih => intro a; exact le_trans (le_max_left a b) (ih (max a b))

theorem foldl_max_mem (l : List ℚ) : ∀ (a x : ℚ), x ∈ l → x ≤ l.foldl max a := by
  induction l with
  | nil => intro a x hx; cases hx
  | cons b l ih =>
    intro a x hx
    rcases List.mem_cons.1 hx with h | h
    · subst h; exact le_trans (le_max_right a x) (foldl_max_init l _)
    · exact ih _ x h

theorem maxD_ge (l : List ℚ) (x : ℚ) (hx : x ∈ l) : x ≤ maxD l := by
  cases l with
  | nil => cases hx
  | cons a l =>
    rcases List.mem_cons.1 hx with h | h
    · subst h; exact foldl_max_init l x
    · exact foldl_max_mem l a x h

theorem getD_nonneg_of_mem_nonneg (l : List ℚ) (hr : ∀ r ∈ l, 0 ≤ r) (i : ℕ) :
    0 ≤ l.getD i 0 := by
  by_cases h : i < l.length
  · rw [List.getD_eq_getElem l 0 h]
    exact hr _ (List.getElem_mem h)
  · rw [List.getD_eq_default l 0 (not_lt.1 h)]

/-! Helper lemmas about the running spiral radius. -/

theorem runningRadii_length (radii : List ℚ) (margin : ℚ) :
    ∀ (order : List ℕ) (base : ℚ),
      (runningRadii radii margin base order).length = order.length := by
  intro order
  induction order with
  | nil => intro base; rfl
  | cons idx rest ih => intro base; simp [runningRadii, ih]

theorem runningRadii_getD (radii : List ℚ) (margin : ℚ) :
    ∀ (order : List ℕ) (base : ℚ) (k : ℕ), k < order.length →
      (runningRadii radii margin base order).getD k 0 =
        (if k = 0 then base else (runningRadii radii margin base order).getD (k - 1) 0)
          + radii.getD (order.getD k 0) 0 * (3 / 2 + margin) := by
  intro order
  induction order with
  | nil => intro base k hk; cases hk
  | cons idx rest ih =>
    intro base k hk
    cases k with
    | zero => simp [runningRadii]
    | succ m =>
      have hm : m < rest.length := by
        simpa using Nat.lt_of_succ_lt_succ hk
      have hrec := ih (base + radii.getD idx 0 * (3 / 2 + margin)) m hm
      simp only [runningRadii, List.getD_cons_succ]
      rw [hrec]
      cases m with
      | zero => simp [runningRadii]
      | succ s => simp [List.getD_cons_succ]

theorem runningRadii_base_le (radii : List ℚ) (margin : ℚ) (hm : 0 ≤ margin)
    (hr : ∀ idx, 0 ≤ radii.getD idx 0) :
    ∀ (order : List ℕ) (base : ℚ) (k : ℕ), k < order.length →
      base ≤ (runningRadii radii margin base order).getD k 0 := by
  intro order
  induction order with
  | nil => intro base k hk; cases hk
  | cons idx rest ih =>
    intro base k hk
    have hstep : 0 ≤ radii.getD idx 0 * (3 / 2 + margin) :=
      mul_nonneg (hr idx) (by linarith)
    cases k with
    | zero =>
      rw [show runningRadii radii margin base (idx :: rest) =
          (base + radii.getD idx 0 * (3 / 2 + margin)) ::
            runningRadii radii margin (base + radii.getD idx 0 * (3 / 2 + margin)) rest from rfl,
        List.getD_cons_zero]
      linarith
    | succ m =>
      have hm2 : m < rest.length := by
        simpa using Nat.lt_of_succ_lt_succ hk
      have := ih (base + radii.getD idx 0 * (3 / 2 + margin)) m hm2
      simp only [runningRadii, List.getD_cons_succ]
      linarith

/-! Helper lemmas about the reduction loop of solve_multi. -/

theorem selectStep_snd_le (best : Option (List (ℚ × ℚ)) × WithTop ℚ) (r : SolveResult) :
    (selectStep best r).2 ≤ best.2 := by
  unfold selectStep
  split_ifs with h
  · exact h.2.le
  · exact le_refl _

theorem foldl_selectStep_snd_le (rs : List SolveResult) :
    ∀ best, (rs.foldl selectStep best).2 ≤ best.2 := by
  induction rs with
  | nil => intro best; exact le_refl _
  | cons a rs ih =>
    intro best
    exact le_trans (ih (selectStep best a)) (selectStep_snd_le best a)

theorem foldl_selectStep_le_feasible (rs : List SolveResult) :
    ∀ best, ∀ r ∈ rs, r.success = true →
      (rs.foldl selectStep best).2 ≤ ((r.R : ℚ) : WithTop ℚ) := by
  induction rs with
  | nil => intro best r hr; cases hr
  | cons a rs ih =>
    intro best r hr hs
    rcases List.mem_cons.1 hr with h | h
    · subst h
      refine le_trans (foldl_selectStep_snd_le rs (selectStep best r)) ?_
      unfold selectStep
      split_ifs with h2
      · exact le_refl _
      · rcases not_and_or.1 h2 with h3 | h3
        · exact absurd hs h3
        · exact not_lt.1 h3
    · exact ih (selectStep best a) r h hs

theorem foldl_selectStep_cases (rs : List SolveResult) :
    ∀ best, rs.foldl selectStep best = best ∨
      ∃ r ∈ rs, r.success = true ∧
        rs.foldl selectStep best = (some r.coords, ((r.R : ℚ) : WithTop ℚ)) := by
  induction rs with
  | nil => intro best; exact Or.inl rfl
  | cons a rs ih =>
    intro best
    by_cases h : a.success = true ∧ ((a.R : ℚ) : WithTop ℚ) < best.2
    · have hstep : selectStep best a = (some a.coords, ((a.R : ℚ) : WithTop ℚ)) := by
        unfold selectStep; rw [if_pos h]
      rcases ih (selectStep best a) with h1 | ⟨r, hr, hs, he⟩
      · refine Or.inr ⟨a, List.mem_cons_self a rs, h.1, ?_⟩
        rw [List.foldl_cons, h1, hstep]
      · exact Or.inr ⟨r, List.mem_cons_of_mem a hr, hs, by rw [List.foldl_cons]; exact he⟩
    · have hstep : selectStep best a = best := by
        unfold selectStep; rw [if_neg h]
      rcases ih best with h1 | ⟨r, hr, hs, he⟩
      · exact Or.inl (by rw [List.foldl_cons, hstep, h1])
      · exact Or.inr ⟨r, List.mem_cons_of_mem a hr, hs, by rw [List.foldl_cons, hstep]; exact he⟩

theorem foldl_selectStep_all_fail (rs : List SolveResult) :
    ∀ best, (∀ r ∈ rs, r.success = false) → rs.foldl selectStep best = best := by
  induction rs with
  | nil => intro best _; rfl
  | cons a rs ih =>
    intro best hall
    have ha : a.success = false := hall a (List.mem_cons_self a rs)
    have hstep : selectStep best a = best := by
      unfold selectStep
      rw [if_neg]
      intro hc
      rw [ha] at hc
      exact Bool.false_ne_true hc.1
    rw [List.foldl_cons, hstep]
    exact ih best (fun r hr => hall r (List.mem_cons_of_mem a hr))

theorem selectBest_all_fail (rs : List SolveResult) (h : ∀ r ∈ rs, r.success = false) :
    selectBest rs = (none, ⊤) :=
  foldl_selectStep_all_fail rs (none, ⊤) h

theorem selectBest_feasible (rs : List SolveResult) (h : ∃ r ∈ rs, r.success = true) :
    ∃ r ∈ rs, r.success = true ∧
      selectBest rs = (some r.coords, ((r.R : ℚ) : WithTop ℚ)) ∧
      ∀ r2 ∈ rs, r2.success = true → r.R ≤ r2.R := by
  obtain ⟨r0, hr0, hs0⟩ := h
  rcases foldl_selectStep_cases rs (none, ⊤) with h1 | ⟨r, hr, hs, he⟩
  · exfalso
    have h2 := foldl_selectStep_le_feasible rs (none, ⊤) r0 hr0 hs0
    rw [h1] at h2
    exact absurd (lt_of_le_of_lt h2 (WithTop.coe_lt_top _)) (lt_irrefl _)
  · refine ⟨r, hr, hs, he, fun r2 hr2 hs2 => ?_⟩
    have h2 := foldl_selectStep_le_feasible rs (none, ⊤) r2 hr2 hs2
    have h3 : (rs.foldl selectStep (none, ⊤)).2 = ((r.R : ℚ) : WithTop ℚ) := by
      rw [he]
    rw [h3] at h2
    exact WithTop.coe_le_coe.1 h2

/-! Helper lemmas about the upper-triangle pair list. -/

theorem rowPairs_mem (n i : ℕ) (p : ℕ × ℕ) :
    p ∈ rowPairs n i ↔ p.1 = i ∧ i < p.2 ∧ p.2 < n := by
  unfold rowPairs
  simp only [List.mem_map, List.mem_range'_1]
  constructor
  · rintro ⟨j, ⟨hj1, hj2⟩, rfl⟩
    exact ⟨rfl, by omega, by omega⟩
  · rintro ⟨h1, h2, h3⟩
    exact ⟨p.2, ⟨by omega, by omega⟩, by rw [← h1]⟩

theorem triuFrom_mem (n : ℕ) :
    ∀ (fuel i : ℕ), i + fuel = n → ∀ p : ℕ × ℕ,
      (p ∈ triuFrom n fuel i ↔ i ≤ p.1 ∧ p.1 < p.2 ∧ p.2 < n) := by
  intro fuel
  induction fuel with
  | zero =>
    intro i hi p
    simp only [triuFrom, List.not_mem_nil, false_iff]
    omega
  | succ fuel ih =>
    intro i hi p
    simp only [triuFrom, List.mem_append]
    rw [rowPairs_mem, ih (i + 1) (by omega) p]
    omega

theorem triu_mem (n : ℕ) (p : ℕ × ℕ) : p ∈ triu n ↔ p.1 < p.2 ∧ p.2 < n := by
  rw [triu, triuFrom_mem n n 0 (by omega) p]
  omega

theorem rowPairs_length (n i : ℕ) : (rowPairs n i).length = n - (i + 1) := by
  simp [rowPairs]

theorem triuFrom_length (n : ℕ) :
    ∀ (fuel i : ℕ), i + fuel = n → 2 * (triuFrom n fuel i).length = fuel * (fuel - 1) := by
  intro fuel
  induction fuel with
  | zero => intro i hi; rfl
  | succ fuel ih =>
    intro i hi
    have h2 := ih (i + 1) (by omega)
    simp only [triuFrom, List.length_append, rowPairs_length]
    have e1 : n - (i + 1) = fuel := by omega
    have e2 : (fuel + 1) * ((fuel + 1) - 1) = fuel * (fuel - 1) + 2 * fuel := by
      cases fuel with
      | zero => rfl
      | succ f => simp only [Nat.succ_sub_one]; ring
    rw [e1, e2, ← h2]
    ring

theorem triu_length (n : ℕ) : 2 * (triu n).length = n * (n - 1) :=
  triuFrom_length n n 0 (by omega)

theorem rowPairs_sorted (n i : ℕ) : List.Sorted pairLexLt (rowPairs n i) := by
  unfold rowPairs List.Sorted
  rw [List.pairwise_map]
  exact (List.pairwise_lt_range' (i + 1) (n - (i + 1))).imp (fun h => Or.inr ⟨rfl, h⟩)

theorem triuFrom_sorted (n : ℕ) :
    ∀ (fuel i : ℕ), i + fuel = n → List.Sorted pairLexLt (triuFrom n fuel i) := by
  intro fuel
  induction fuel with
  | zero => intro i hi; exact List.sorted_nil
  | succ fuel ih =>
    intro i hi
    unfold triuFrom List.Sorted
    rw [List.pairwise_append]
    refine ⟨rowPairs_sorted n i, ih (i + 1) (by omega), ?_⟩
    intro a ha b hb
    have ha1 : a.1 = i := ((rowPairs_mem n i a).1 ha).1
    have hb1 : i + 1 ≤ b.1 := ((triuFrom_mem n fuel (i + 1) (by omega) b).1 hb).1
    exact Or.inl (by omega)

theorem triu_sorted (n : ℕ) : List.Sorted pairLexLt (triu n) :=
  triuFrom_sorted n n 0 (by omega)

/-! Helper lemmas about the constructed instance. -/

theorem init_r_eff_length (radii : List ℚ) (margin ier : ℚ) :
    (init radii margin ier).r_eff.length = radii.length := by
  simp [init]

theorem init_r_eff_getD (radii : List ℚ) (margin ier : ℚ) (i : ℕ) (h : i < radii.length) :
    (init radii margin ier).r_eff.getD i 0 = radii.getD i 0 * (1 + margin) := by
  have hlen : i < (init radii margin ier).r_eff.length := by
    rw [init_r_eff_length]; exact h
  rw [List.getD_eq_getElem _ 0 hlen, List.getD_eq_getElem radii 0 h]
  simp [init]

/-! Helper lemmas about the spiral placement order. -/

theorem spiralOrder_perm (st : Optimizer) : (spiralOrder st).Perm (List.range st.n) :=
  List.perm_insertionSort _ _

theorem spiralOrder_length (st : Optimizer) : (spiralOrder st).length = st.n := by
  simp [spiralOrder, List.length_insertionSort]

theorem spiralOrder_nodup (st : Optimizer) : (spiralOrder st).Nodup :=
  (spiralOrder_perm st).symm.nodup (List.nodup_range st.n)

theorem spiralOrder_mem (st : Optimizer) (i : ℕ) : i ∈ spiralOrder st ↔ i < st.n := by
  rw [(spiralOrder_perm st).mem_iff, List.mem_range]

theorem spiralOrder_sorted (st : Optimizer) :
    List.Sorted (fun i j => st.radii.getD j 0 ≤ st.radii.getD i 0) (spiralOrder st) := by
  have htot : IsTotal ℕ (fun i j => st.radii.getD j 0 ≤ st.radii.getD i 0) :=
    ⟨fun i j => le_total _ _⟩
  have htrans : IsTrans ℕ (fun i j => st.radii.getD j 0 ≤ st.radii.getD i 0) :=
    ⟨fun a b c hab hbc => le_trans hbc hab⟩
  exact @List.sorted_insertionSort ℕ _ _ htot htrans _

theorem spiralRunningRadii_length (st : Optimizer) :
    (spiralRunningRadii st).length = st.n := by
  rw [spiralRunningRadii, runningRadii_length, spiralOrder_length]

theorem spiralCoordOfDisk_placed (st : Optimizer) (k : ℕ)
    (hk : k < (spiralOrder st).length) :
    spiralCoordOfDisk st ((spiralOrder st).getD k 0) = spiralPlacement st k := by
  rw [List.getD_eq_getElem _ 0 hk]
  unfold spiralCoordOfDisk
  rw [List.indexOf_getElem (spiralOrder_nodup st) k hk]

theorem spiralPlacement_norm (st : Optimizer) (k : ℕ)
    (hρ : 0 ≤ (spiralRunningRadii st).getD k 0) :
    norm2 (spiralPlacement st k) = (((spiralRunningRadii st).getD k 0 : ℚ) : ℝ) := by
  unfold spiralPlacement
  rw [norm2_scale_left, norm2_cos_sin, mul_one, abs_of_nonneg]
  exact_mod_cast hρ

/-! Unfolding lemmas for solve_multi. -/

theorem solveMulti_guesses_def (st : Optimizer) (n_init : ℤ) (solver : List ℝ → SolveResult)
    (draws : ℕ → Draw) :
    (solveMulti st n_init solver draws).guesses = initialGuesses st n_init draws := rfl

theorem solveMulti_results_def (st : Optimizer) (n_init : ℤ) (solver : List ℝ → SolveResult)
    (draws : ℕ → Draw) :
    (solveMulti st n_init solver draws).results =
      (initialGuesses st n_init draws).map solver := rfl

theorem solveMulti_events_def (st : Optimizer) (n_init : ℤ) (solver : List ℝ → SolveResult)
    (draws : ℕ → Draw) :
    (solveMulti st n_init solver draws).events =
      (List.range (initialGuesses st n_init draws).length).map
        (fun k => (k + 1, (initialGuesses st n_init draws).length)) := rfl

theorem solveMulti_best_coords_def (st : Optimizer) (n_init : ℤ)
    (solver : List ℝ → SolveResult) (draws : ℕ → Draw) :
    (solveMulti st n_init solver draws).best_coords =
      (selectBest ((solveMulti st n_init solver draws).results)).1 := rfl

theorem solveMulti_best_R_def (st : Optimizer) (n_init : ℤ)
    (solver : List ℝ → SolveResult) (draws : ℕ → Draw) :
    (solveMulti st n_init solver draws).best_R =
      (selectBest ((solveMulti st n_init solver draws).results)).2 := rfl

theorem initialGuesses_length (st : Optimizer) (n_init : ℤ) (draws : ℕ → Draw) :
    (initialGuesses st n_init draws).length = 1 + numRandom n_init := by
  simp [initialGuesses]
  omega

theorem numRandom_of_one_le (n_init : ℤ) (h : 1 ≤ n_init) :
    1 + numRandom n_init = n_init.toNat := by
  unfold numRandom
  split_ifs <;> omega

theorem numRandom_of_le_one (n_init : ℤ) (h : n_init ≤ 1) : numRandom n_init = 0 := by
  unfold numRandom
  split_ifs <;> omega

/-- Claim C1: the result returned by solve_multi is the coordinates and R
of a feasible (success = true) attempt whose R is smallest among all
feasible attempts; with no feasible attempt, solve_multi returns the
sentinel outcome of no coordinates (none) and an infinite radius (⊤), and,
being a total function, it does not raise. -/
theorem solveMulti_best_is_min_feasible (st : Optimizer) (n_init : ℤ)
    (solver : List ℝ → SolveResult) (draws : ℕ → Draw) :
    ((∀ r ∈ (solveMulti st n_init solver draws).results, r.success = false) →
      (solveMulti st n_init solver draws).best_coords = none ∧
      (solveMulti st n_init solver draws).best_R = ⊤) ∧
    ((∃ r ∈ (solveMulti st n_init solver draws).results, r.success = true) →
      ∃ r ∈ (solveMulti st n_init solver draws).results,
        r.success = true ∧
        (solveMulti st n_init solver draws).best_coords = some r.coords ∧
        (solveMulti st n_init solver draws).best_R = ((r.R : ℚ) : WithTop ℚ) ∧
        ∀ r2 ∈ (solveMulti st n_init solver draws).results,
          r2.success = true → r.R ≤ r2.R) := by
  constructor
  · intro hall
    have h := selectBest_all_fail _ hall
    rw [solveMulti_best_coords_def, solveMulti_best_R_def, h]
    exact ⟨rfl, rfl⟩
  · intro hex
    obtain ⟨r, hr, hs, he, hmin⟩ := selectBest_feasible _ hex
    refine ⟨r, hr, hs, ?_, ?_, hmin⟩
    · rw [solveMulti_best_coords_def, he]
    · rw [solveMulti_best_R_def, he]

/-- Witness for C1: a run with a single feasible attempt returns that
attempt as the best outcome. -/
theorem solveMulti_best_is_min_feasible_witness :
    (∃ r ∈ (solveMulti (init [1] 0 0) 1 demoSolverOk demoDraws).results,
      r.success = true) ∧
    (∃ r ∈ (solveMulti (init [1] 0 0) 1 demoSolverOk demoDraws).results,
      r.success = true ∧
      (solveMulti (init [1] 0 0) 1 demoSolverOk demoDraws).best_coords = some r.coords ∧
      (solveMulti (init [1] 0 0) 1 demoSolverOk demoDraws).best_R = ((r.R : ℚ) : WithTop ℚ) ∧
      ∀ r2 ∈ (solveMulti (init [1] 0 0) 1 demoSolverOk demoDraws).results,
        r2.success = true → r.R ≤ r2.R) := by
  have hex : ∃ r ∈ (solveMulti (init [1] 0 0) 1 demoSolverOk demoDraws).results,
      r.success = true := by
    refine ⟨{ coords := [((0 : ℚ), (0 : ℚ))], R := 2, success := true }, ?_, rfl⟩
    rw [solveMulti_results_def]
    have h : initialGuesses (init [1] 0 0) 1 demoDraws =
        [spiralGuess (init [1] 0 0)] := by
      unfold initialGuesses
      rw [numRandom_of_le_one 1 (le_refl 1)]
      rfl
    rw [h]
    exact List.mem_singleton.2 rfl
  exact ⟨hex, (solveMulti_best_is_min_feasible (init [1] 0 0) 1 demoSolverOk demoDraws).2 hex⟩

/-- Claim C2 counterexample: construction with zero disks and negative
margin and exclusion radius does not report any failure: it produces an
ordinary handle recording those values, and a subsequent solve_multi call
still runs its solve attempt on it, so the invalid input does reach the
solver. -/
theorem init_accepts_invalid_inputs_cex :
    (init [] (-1) (-1)).n = 0 ∧
    (init [] (-1) (-1)).margin = -1 ∧
    (init [] (-1) (-1)).inner_exclusion_radius = -1 ∧
    (solveMulti (init [] (-1) (-1)) 1 demoSolverFail demoDraws).results.length = 1 := by
  refine ⟨rfl, rfl, rfl, ?_⟩
  rw [solveMulti_results_def, List.length_map, initialGuesses_length,
    numRandom_of_le_one 1 (le_refl 1)]

/-- Claim C2 (amended): the constructor performs no input validation.
Zero disks, non-positive radii, negative margin or negative exclusion
radius are accepted unchanged into the handle, and solve_multi runs its
solve attempt on such a handle; no InvalidInput failure path exists. -/
theorem init_no_validation (radii : List ℚ) (margin ier : ℚ)
    (solver : List ℝ → SolveResult) (draws : ℕ → Draw)
    (h : radii = [] ∨ margin < 0 ∨ ier < 0 ∨ ∃ r ∈ radii, r ≤ 0) :
    (init radii margin ier).radii = radii ∧
    (init radii margin ier).margin = margin ∧
    (init radii margin ier).inner_exclusion_radius = ier ∧
    (solveMulti (init radii margin ier) 1 solver draws).results.length = 1 := by
  refine ⟨rfl, rfl, rfl, ?_⟩
  rw [solveMulti_results_def, List.length_map, initialGuesses_length,
    numRandom_of_le_one 1 (le_refl 1)]

/-- Witness for C2 (amended): the empty radii list with negative margin
and exclusion radius builds a handle and performs one solve attempt. -/
theorem init_no_validation_witness :
    (([] : List ℚ) = [] ∨ (-1 : ℚ) < 0 ∨ (-1 : ℚ) < 0 ∨ ∃ r ∈ ([] : List ℚ), r ≤ 0) ∧
    (solveMulti (init [] (-1) (-1)) 1 demoSolverOk demoDraws).results.length = 1 :=
  ⟨Or.inl rfl,
    (init_no_validation [] (-1) (-1) demoSolverOk demoDraws (Or.inl rfl)).2.2.2⟩

/-- Claim C3 counterexample: with radii = [1] and margin = 1 the first
spiral placement increases the running radius over the base by
1 * (1.5 + 1) = 5/2, while 1.5 times the effective radius is
1.5 * (1 * (1 + 1)) = 3, so the increment is not 1.5 * r_eff. -/
theorem spiral_increment_cex :
    (spiralRunningRadii (init [1] 1 0)).getD 0 0 - spiralBase (init [1] 1 0) = 5 / 2 ∧
    (3 / 2 : ℚ) * (init [1] 1 0).r_eff.getD 0 0 = 3 ∧
    (5 / 2 : ℚ) ≠ 3 := by
  have hrun : (spiralRunningRadii (init [1] 1 0)).getD 0 0 =
      spiralBase (init [1] 1 0) + 1 * (3 / 2 + 1) := rfl
  have hre : (init [1] 1 0).r_eff.getD 0 0 = 1 * (1 + 1) := rfl
  refine ⟨?_, ?_, by norm_num⟩
  · rw [hrun, add_sub_cancel_left]
    norm_num
  · rw [hre]
    norm_num

/-- Claim C3 (amended): each successive spiral placement increases the
running radius by radii_i * (1.5 + margin) before placing, i.e. by the
disk's raw radius times (1.5 + margin), not by 1.5 times its effective
radius (the two agree only at margin = 0). -/
theorem spiral_increment_eq (st : Optimizer) (k : ℕ)
    (hk : k < (spiralOrder st).length) :
    (spiralRunningRadii st).getD k 0 =
      (if k = 0 then spiralBase st else (spiralRunningRadii st).getD (k - 1) 0)
        + st.radii.getD ((spiralOrder st).getD k 0) 0 * (3 / 2 + st.margin) :=
  runningRadii_getD st.radii st.margin (spiralOrder st) (spiralBase st) k hk

/-- Witness for C3 (amended): the second placement of a two-disk spiral. -/
theorem spiral_increment_eq_witness :
    1 < (spiralOrder (init [2, 1] 0 0)).length ∧
    (spiralRunningRadii (init [2, 1] 0 0)).getD 1 0 =
      (if (1 : ℕ) = 0 then spiralBase (init [2, 1] 0 0)
        else (spiralRunningRadii (init [2, 1] 0 0)).getD (1 - 1) 0)
        + (init [2, 1] 0 0).radii.getD ((spiralOrder (init [2, 1] 0 0)).getD 1 0) 0
            * (3 / 2 + (init [2, 1] 0 0).margin) :=
  ⟨by rw [spiralOrder_length]; decide,
    spiral_increment_eq (init [2, 1] 0 0) 1 (by rw [spiralOrder_length]; decide)⟩

/-- Claim C8: for n_initializations ≥ 1, solve_multi generates exactly
n_initializations initial guesses, namely one spiral guess followed by
n_initializations - 1 random guesses (each seeded with the spiral radius
seed R0), runs one solve attempt per guess, and reports progress after
each completed attempt with (completedCount, totalCount). -/
theorem solveMulti_attempt_schedule (st : Optimizer) (n_init : ℤ)
    (solver : List ℝ → SolveResult) (draws : ℕ → Draw) (h : 1 ≤ n_init) :
    (solveMulti st n_init solver draws).guesses.length = n_init.toNat ∧
    (solveMulti st n_init solver draws).guesses.getD 0 [] = spiralGuess st ∧
    (∀ k, k + 1 < n_init.toNat →
      (solveMulti st n_init solver draws).guesses.getD (k + 1) [] =
        randomGuess st (spiralRSeed st) (draws k)) ∧
    (solveMulti st n_init solver draws).results =
      (solveMulti st n_init solver draws).guesses.map solver ∧
    (solveMulti st n_init solver draws).events =
      (List.range n_init.toNat).map (fun k => (k + 1, n_init.toNat)) := by
  have hlen : (initialGuesses st n_init draws).length = n_init.toNat := by
    rw [initialGuesses_length, numRandom_of_one_le n_init h]
  refine ⟨?_, ?_, ?_, ?_, ?_⟩
  · rw [solveMulti_guesses_def, hlen]
  · rw [solveMulti_guesses_def]
    unfold initialGuesses
    rw [List.getD_cons_zero]
  · intro k hk
    rw [solveMulti_guesses_def]
    unfold initialGuesses
    rw [List.getD_cons_succ]
    have hk2 : k < numRandom n_init := by
      have := numRandom_of_one_le n_init h
      omega
    have hk3 : k < ((List.range (numRandom n_init)).map
        (fun k => randomGuess st (spiralRSeed st) (draws k))).length := by
      simpa using hk2
    rw [List.getD_eq_getElem _ [] hk3, List.getElem_map, List.getElem_range]
  · rw [solveMulti_results_def, solveMulti_guesses_def]
  · rw [solveMulti_events_def, hlen]

/-- Witness for C8: three initializations on a one-disk instance. -/
theorem solveMulti_attempt_schedule_witness :
    (1 : ℤ) ≤ 3 ∧
    (solveMulti (init [1] 0 0) 3 demoSolverOk demoDraws).guesses.length = (3 : ℤ).toNat ∧
    (solveMulti (init [1] 0 0) 3 demoSolverOk demoDraws).events =
      (List.range (3 : ℤ).toNat).map (fun k => (k + 1, (3 : ℤ).toNat)) := by
  have h := solveMulti_attempt_schedule (init [1] 0 0) 3 demoSolverOk demoDraws (by decide)
  exact ⟨by decide, h.1, h.2.2.2.2⟩

/-- Claim C9: a solve_multi call leaves every precomputed field of the
instance unchanged (radii, effective radii, margin, exclusion radius,
counts, pair index list, pair effective radii) and writes only the cached
best result into positions and outer_radius; and every constraint or
Jacobian evaluation reads only those precomputed fields, so its value is
unaffected by the mutable cache. -/
theorem solveMulti_frame_condition (st : Optimizer) (n_init : ℤ)
    (solver : List ℝ → SolveResult) (draws : ℕ → Draw) (x : List ℝ)
    (p : Option (List (ℚ × ℚ))) (R : WithTop ℚ) :
    ((solveMulti st n_init solver draws).final.radii = st.radii ∧
     (solveMulti st n_init solver draws).final.r_eff = st.r_eff ∧
     (solveMulti st n_init solver draws).final.margin = st.margin ∧
     (solveMulti st n_init solver draws).final.inner_exclusion_radius =
       st.inner_exclusion_radius ∧
     (solveMulti st n_init solver draws).final.n = st.n ∧
     (solveMulti st n_init solver draws).final.n_vars = st.n_vars ∧
     (solveMulti st n_init solver draws).final.pairs = st.pairs ∧
     (solveMulti st n_init solver draws).final.pair_r_eff = st.pair_r_eff) ∧
    ((solveMulti st n_init solver draws).final.positions =
       (solveMulti st n_init solver draws).best_coords ∧
     (solveMulti st n_init solver draws).final.outer_radius =
       (solveMulti st n_init solver draws).best_R) ∧
    (objective x = objective x ∧
     gradObjective { st with positions := p, outer_radius := R } =
       gradObjective st ∧
     constraintOuter { st with positions := p, outer_radius := R } x =
       constraintOuter st x ∧
     constraintPairs { st with positions := p, outer_radius := R } x =
       constraintPairs st x ∧
     constraintInnerHole { st with positions := p, outer_radius := R } x =
       constraintInnerHole st x ∧
     jacOuter { st with positions := p, outer_radius := R } x =
       jacOuter st x ∧
     jacPairs { st with positions := p, outer_radius := R } x =
       jacPairs st x ∧
     jacInnerHole { st with positions := p, outer_radius := R } x =
       jacInnerHole st x) :=
  ⟨⟨rfl, rfl, rfl, rfl, rfl, rfl, rfl, rfl⟩, ⟨rfl, rfl⟩,
    ⟨rfl, rfl, rfl, rfl, rfl, rfl, rfl, rfl⟩⟩

/-- Claim C10: for any n_initializations ≤ 1, including zero and negative
values, solve_multi performs exactly one solve attempt, from the spiral
guess, and the progress callback fires exactly once with (1, 1). -/
theorem solveMulti_nonpositive_inits (st : Optimizer) (n_init : ℤ)
    (solver : List ℝ → SolveResult) (draws : ℕ → Draw) (h : n_init ≤ 1) :
    (solveMulti st n_init solver draws).guesses = [spiralGuess st] ∧
    (solveMulti st n_init solver draws).results = [solver (spiralGuess st)] ∧
    (solveMulti st n_init solver draws).events = [(1, 1)] := by
  have hg : initialGuesses st n_init draws = [spiralGuess st] := by
    unfold initialGuesses
    rw [numRandom_of_le_one n_init h]
    rfl
  refine ⟨?_, ?_, ?_⟩
  · rw [solveMulti_guesses_def, hg]
  · rw [solveMulti_results_def, hg]
    rfl
  · rw [solveMulti_events_def, hg]
    rfl

/-- Witness for C10: n_initializations = -5 still yields exactly the
spiral attempt and a single (1, 1) progress event. -/
theorem solveMulti_nonpositive_inits_witness :
    (-5 : ℤ) ≤ 1 ∧
    (solveMulti (init [1] 0 0) (-5) demoSolverOk demoDraws).guesses =
      [spiralGuess (init [1] 0 0)] ∧
    (solveMulti (init [1] 0 0) (-5) demoSolverOk demoDraws).events = [(1, 1)] := by
  have h := solveMulti_nonpositive_inits (init [1] 0 0) (-5) demoSolverOk demoDraws (by decide)
  exact ⟨by decide, h.1, h.2.2⟩

/-- Claim C4: every random center produced inside solve_multi respects the
inner-exclusion bound: disk i's generated center has distance at least
inner_exclusion_radius + r_eff_i from the origin; a draw below that ring
is projected radially onto exactly the ring, and a draw within numerical
noise (1e-9) of the origin is placed on the ring in the direction of the
drawn random angle. -/
theorem random_guess_exclusion_bound (radii : List ℚ) (margin ier : ℚ) (d : Draw) (i : ℕ)
    (hm : 0 ≤ margin) (hi : 0 ≤ ier) (hr : ∀ r ∈ radii, 0 ≤ r) (hn : i < radii.length) :
    (((minRing (init radii margin ier) i : ℚ) : ℝ) ≤
      norm2 ((randomCoords (init radii margin ier) d).getD i (0, 0))) ∧
    (norm2 (d.point i) < ((minRing (init radii margin ier) i : ℚ) : ℝ) →
      norm2 ((randomCoords (init radii margin ier) d).getD i (0, 0)) =
        ((minRing (init radii margin ier) i : ℚ) : ℝ)) ∧
    (norm2 (d.point i) < ((minRing (init radii margin ier) i : ℚ) : ℝ) →
      norm2 (d.point i) < 1 / 10 ^ 9 →
      (randomCoords (init radii margin ier) d).getD i (0, 0) =
        (Real.cos (d.theta i) * ((minRing (init radii margin ier) i : ℚ) : ℝ),
         Real.sin (d.theta i) * ((minRing (init radii margin ier) i : ℚ) : ℝ))) := by
  have hgetD : (randomCoords (init radii margin ier) d).getD i (0, 0) =
      repairDisk ((minRing (init radii margin ier) i : ℚ) : ℝ) (d.point i) (d.theta i) := by
    unfold randomCoords
    have hlen : i < ((List.range (init radii margin ier).n).map
        (fun i => repairDisk ((minRing (init radii margin ier) i : ℚ) : ℝ)
          (d.point i) (d.theta i))).length := by
      simpa using hn
    rw [List.getD_eq_getElem _ _ hlen, List.getElem_map, List.getElem_range]
  have hring : (0 : ℝ) ≤ ((minRing (init radii margin ier) i : ℚ) : ℝ) := by
    have hq : (0 : ℚ) ≤ minRing (init radii margin ier) i := by
      unfold minRing
      rw [init_r_eff_getD radii margin ier i hn]
      have h2 : (0 : ℚ) ≤ radii.getD i 0 := getD_nonneg_of_mem_nonneg radii hr i
      have h3 : (0 : ℚ) ≤ radii.getD i 0 * (1 + margin) :=
        mul_nonneg h2 (by linarith)
      have h4 : (init radii margin ier).inner_exclusion_radius = ier := rfl
      rw [h4]
      linarith
    exact_mod_cast hq
  refine ⟨?_, ?_, ?_⟩
  · rw [hgetD]
    exact repairDisk_norm_ge _ _ _ hring
  · intro hlt
    rw [hgetD]
    exact repairDisk_norm_eq _ _ _ hring hlt
  · intro hlt htiny
    rw [hgetD]
    exact repairDisk_tiny _ _ _ hlt htiny

/-- Witness for C4: a single disk of radius 1 with exclusion radius 1 and
the draw at the exact origin is pushed out to at least its minimum ring. -/
theorem random_guess_exclusion_bound_witness :
    (0 : ℚ) ≤ 0 ∧ (0 : ℚ) ≤ 1 ∧ 0 < ([1] : List ℚ).length ∧
    ((minRing (init [1] 0 1) 0 : ℚ) : ℝ) ≤
      norm2 ((randomCoords (init [1] 0 1) demoDraw).getD 0 (0, 0)) := by
  have hr : ∀ r ∈ ([1] : List ℚ), 0 ≤ r := by
    intro r hr2
    rw [List.mem_singleton.1 hr2]
    norm_num
  exact ⟨le_refl 0, by norm_num, by decide,
    (random_guess_exclusion_bound [1] 0 1 demoDraw 0 (le_refl 0) (by norm_num) hr
      (by decide)).1⟩

/-- Claim C5: the spiral initial guess visits the disks in decreasing
raw-radius order (a permutation of all disk indices), starts the spiral at
radius inner_exclusion_radius + max r_eff, places the k-th visited disk at
angle k * 2π/n on the current running radius, and every placed center,
including the first, lies at distance at least
inner_exclusion_radius + r_eff_i from the origin for its disk i. -/
theorem spiral_guess_order_and_exclusion (radii : List ℚ) (margin ier : ℚ)
    (hm : 0 ≤ margin) (hi : 0 ≤ ier) (hr : ∀ r ∈ radii, 0 ≤ r) (hn : 1 ≤ radii.length) :
    List.Sorted
      (fun i j => (init radii margin ier).radii.getD j 0 ≤
        (init radii margin ier).radii.getD i 0)
      (spiralOrder (init radii margin ier)) ∧
    (spiralOrder (init radii margin ier)).Perm (List.range radii.length) ∧
    spiralBase (init radii margin ier) = ier + maxD (init radii margin ier).r_eff ∧
    (∀ k, k < radii.length →
      spiralCoordOfDisk (init radii margin ier)
          ((spiralOrder (init radii margin ier)).getD k 0) =
        ((((spiralRunningRadii (init radii margin ier)).getD k 0 : ℚ) : ℝ) *
            Real.cos (k * (2 * Real.pi / (radii.length : ℝ))),
         (((spiralRunningRadii (init radii margin ier)).getD k 0 : ℚ) : ℝ) *
            Real.sin (k * (2 * Real.pi / (radii.length : ℝ))))) ∧
    (∀ i, i < radii.length →
      ((ier + (init radii margin ier).r_eff.getD i 0 : ℚ) : ℝ) ≤
        norm2 (spiralCoordOfDisk (init radii margin ier) i)) := by
  have hstep : spiralStep (init radii margin ier) = 2 * Real.pi / (radii.length : ℝ) := by
    unfold spiralStep
    have hmax : (init radii margin ier).n ⊔ 1 = radii.length := Nat.max_eq_left hn
    rw [hmax]
  have hrnonneg : ∀ idx, 0 ≤ (init radii margin ier).radii.getD idx 0 :=
    getD_nonneg_of_mem_nonneg radii hr
  refine ⟨spiralOrder_sorted _, spiralOrder_perm _, rfl, ?_, ?_⟩
  · intro k hk
    have hk2 : k < (spiralOrder (init radii margin ier)).length := by
      rw [spiralOrder_length]
      exact hk
    rw [spiralCoordOfDisk_placed _ k hk2]
    unfold spiralPlacement
    rw [hstep]
  · intro i hi2
    have hmem : i ∈ spiralOrder (init radii margin ier) :=
      (spiralOrder_mem _ i).2 hi2
    have hklt : (spiralOrder (init radii margin ier)).indexOf i <
        (spiralOrder (init radii margin ier)).length :=
      List.indexOf_lt_length.2 hmem
    have hklt2 : (spiralOrder (init radii margin ier)).indexOf i <
        (spiralOrder (init radii margin ier)).length := by
      exact hklt
    have hbase_le : spiralBase (init radii margin ier) ≤
        (spiralRunningRadii (init radii margin ier)).getD
          ((spiralOrder (init radii margin ier)).indexOf i) 0 :=
      runningRadii_base_le (init radii margin ier).radii (init radii margin ier).margin
        hm hrnonneg (spiralOrder (init radii margin ier))
        (spiralBase (init radii margin ier)) _ hklt
    have hreff_mem : (init radii margin ier).r_eff.getD i 0 ∈ (init radii margin ier).r_eff := by
      have hlen : i < (init radii margin ier).r_eff.length := by
        rw [init_r_eff_length]
        exact hi2
      rw [List.getD_eq_getElem _ 0 hlen]
      exact List.getElem_mem hlen
    have hbound : ier + (init radii margin ier).r_eff.getD i 0 ≤
        spiralBase (init radii margin ier) := by
      have h5 : (init radii margin ier).r_eff.getD i 0 ≤ maxD (init radii margin ier).r_eff :=
        maxD_ge _ _ hreff_mem
      unfold spiralBase
      have h6 : (init radii margin ier).inner_exclusion_radius = ier := rfl
      rw [h6]
      linarith
    have hreff_nonneg : 0 ≤ (init radii margin ier).r_eff.getD i 0 := by
      rw [init_r_eff_getD radii margin ier i hi2]
      exact mul_nonneg (getD_nonneg_of_mem_nonneg radii hr i) (by linarith)
    have hρ0 : 0 ≤ (spiralRunningRadii (init radii margin ier)).getD
        ((spiralOrder (init radii margin ier)).indexOf i) 0 := by
      have : 0 ≤ ier + (init radii margin ier).r_eff.getD i 0 := by linarith
      linarith
    have hcoord : spiralCoordOfDisk (init radii margin ier) i =
        spiralPlacement (init radii margin ier)
          ((spiralOrder (init radii margin ier)).indexOf i) := rfl
    rw [hcoord, spiralPlacement_norm _ _ hρ0]
    have hfinal : ier + (init radii margin ier).r_eff.getD i 0 ≤
        (spiralRunningRadii (init radii margin ier)).getD
          ((spiralOrder (init radii margin ier)).indexOf i) 0 := le_trans hbound hbase_le
    exact_mod_cast hfinal

/-- Witness for C5: one disk of radius 1 with no margin or exclusion; the
spiral order is a permutation of the index range. -/
theorem spiral_guess_order_and_exclusion_witness :
    (0 : ℚ) ≤ 0 ∧ 1 ≤ ([1] : List ℚ).length ∧
    (spiralOrder (init [1] 0 0)).Perm (List.range ([1] : List ℚ).length) := by
  have hr : ∀ r ∈ ([1] : List ℚ), 0 ≤ r := by
    intro r hr2
    rw [List.mem_singleton.1 hr2]
    norm_num
  exact ⟨le_refl 0, by decide,
    (spiral_guess_order_and_exclusion [1] 0 0 (le_refl 0) (le_refl 0) hr (by decide)).2.1⟩

/-- Claim C6: for a decision vector of length 2n + 1, the pairwise
constraint returns one entry per unordered pair, n(n-1)/2 in total; the
pair list fixed at construction is lexicographically sorted over i < j and
contains exactly the pairs with i < j < n; entry k is the distance of the
two centers of the k-th pair minus the sum of their effective radii; and
row k of the pairwise Jacobian is supported only on the four coordinate
columns of that same k-th pair. -/
theorem pairwise_constraint_shape (radii : List ℚ) (margin ier : ℚ) (x : List ℝ)
    (hx : x.length = 2 * radii.length + 1) :
    (constraintPairs (init radii margin ier) x).length =
      radii.length * (radii.length - 1) / 2 ∧
    List.Sorted pairLexLt (init radii margin ier).pairs ∧
    (∀ p : ℕ × ℕ, p ∈ (init radii margin ier).pairs ↔ p.1 < p.2 ∧ p.2 < radii.length) ∧
    (∀ k, k < (init radii margin ier).pairs.length →
      (constraintPairs (init radii margin ier) x).getD k 0 =
        norm2 (coord x (pairAt (init radii margin ier) k).1 -
            coord x (pairAt (init radii margin ier) k).2) -
          (((init radii margin ier).r_eff.getD (pairAt (init radii margin ier) k).1 0 +
            (init radii margin ier).r_eff.getD (pairAt (init radii margin ier) k).2 0 : ℚ) : ℝ)) ∧
    (∀ k, k < (init radii margin ier).pairs.length → ∀ c,
      c ≠ 2 * (pairAt (init radii margin ier) k).1 →
      c ≠ 2 * (pairAt (init radii margin ier) k).1 + 1 →
      c ≠ 2 * (pairAt (init radii margin ier) k).2 →
      c ≠ 2 * (pairAt (init radii margin ier) k).2 + 1 →
      jacPairs (init radii margin ier) x k c = 0) := by
  have hpairs : (init radii margin ier).pairs = triu radii.length := rfl
  have hpreff : (init radii margin ier).pair_r_eff =
      (triu radii.length).map
        (fun p => (init radii margin ier).r_eff.getD p.1 0 +
          (init radii margin ier).r_eff.getD p.2 0) := rfl
  have hlen_eq : (init radii margin ier).pair_r_eff.length =
      (init radii margin ier).pairs.length := by
    rw [hpairs, hpreff, List.length_map]
  have hclen : (constraintPairs (init radii margin ier) x).length =
      (init radii margin ier).pairs.length := by
    unfold constraintPairs
    rw [List.length_zipWith, hlen_eq, min_self]
  refine ⟨?_, ?_, ?_, ?_, ?_⟩
  · rw [hclen, hpairs]
    have h2 := triu_length radii.length
    omega
  · rw [hpairs]
    exact triu_sorted radii.length
  · intro p
    rw [hpairs]
    exact triu_mem radii.length p
  · intro k hk
    have hpreff2 : (init radii margin ier).pair_r_eff =
        (init radii margin ier).pairs.map
          (fun p => (init radii margin ier).r_eff.getD p.1 0 +
            (init radii margin ier).r_eff.getD p.2 0) := rfl
    have hform : constraintPairs (init radii margin ier) x =
        (init radii margin ier).pairs.map
          (fun p => norm2 (coord x p.1 - coord x p.2) -
            (((init radii margin ier).r_eff.getD p.1 0 +
              (init radii margin ier).r_eff.getD p.2 0 : ℚ) : ℝ)) := by
      unfold constraintPairs
      rw [hpreff2, List.zipWith_map_right, List.zipWith_same]
    rw [hform]
    have hkm : k < ((init radii margin ier).pairs.map
        (fun p => norm2 (coord x p.1 - coord x p.2) -
          (((init radii margin ier).r_eff.getD p.1 0 +
            (init radii margin ier).r_eff.getD p.2 0 : ℚ) : ℝ))).length := by
      rw [List.length_map]
      exact hk
    have hpa : pairAt (init radii margin ier) k = (init radii margin ier).pairs[k] :=
      List.getD_eq_getElem _ _ hk
    rw [List.getD_eq_getElem _ 0 hkm, List.getElem_map, hpa]
  · intro k hk c h1 h2 h3 h4
    unfold jacPairs
    rw [if_pos hk, if_neg h1, if_neg h2, if_neg h3, if_neg h4]

/-- Witness for C6: three unit disks and the zero decision vector of
length 7; the pairwise constraint has 3 * 2 / 2 = 3 entries. -/
theorem pairwise_constraint_shape_witness :
    (List.replicate 7 (0 : ℝ)).length = 2 * ([1, 1, 1] : List ℚ).length + 1 ∧
    (constraintPairs (init [1, 1, 1] 0 0) (List.replicate 7 (0 : ℝ))).length =
      ([1, 1, 1] : List ℚ).length * (([1, 1, 1] : List ℚ).length - 1) / 2 :=
  ⟨by decide,
    (pairwise_constraint_shape [1, 1, 1] 0 0 (List.replicate 7 (0 : ℝ)) (by decide)).1⟩

/-- Claim C7: every constraint Jacobian is total and guards the division
by a zero norm.  At a center coinciding with the origin, the outer and
inner-exclusion Jacobian rows have zero coordinate entries; at two
coinciding centers, the corresponding pairwise Jacobian row is entirely
zero; and the outer-boundary Jacobian always carries a unit entry in the R
column of every row. -/
theorem jacobian_degenerate_zero_guard (radii : List ℚ) (margin ier : ℚ) (x : List ℝ) :
    (∀ i, i < radii.length → coord x i = ((0 : ℝ), (0 : ℝ)) →
      jacOuter (init radii margin ier) x i (2 * i) = 0 ∧
      jacOuter (init radii margin ier) x i (2 * i + 1) = 0) ∧
    (∀ i, i < radii.length →
      jacOuter (init radii margin ier) x i ((init radii margin ier).n_vars - 1) = 1) ∧
    (∀ k, k < (init radii margin ier).pairs.length →
      coord x (pairAt (init radii margin ier) k).1 =
        coord x (pairAt (init radii margin ier) k).2 →
      ∀ c, jacPairs (init radii margin ier) x k c = 0) ∧
    (∀ i, i < radii.length → coord x i = ((0 : ℝ), (0 : ℝ)) →
      ∀ c, jacInnerHole (init radii margin ier) x i c = 0) := by
  refine ⟨?_, ?_, ?_, ?_⟩
  · intro i hi hzero
    have hi2 : i < (init radii margin ier).n := hi
    constructor
    · unfold jacOuter
      rw [if_pos hi2, if_pos rfl, hzero, scaledDir1_zero, neg_zero]
    · unfold jacOuter
      have hne : 2 * i + 1 ≠ 2 * i := by omega
      rw [if_pos hi2, if_neg hne, if_pos rfl, hzero, scaledDir2_zero, neg_zero]
  · intro i hi
    have hi2 : i < (init radii margin ier).n := hi
    unfold jacOuter
    have hnv : (init radii margin ier).n_vars = radii.length * 2 + 1 := rfl
    have h1 : (init radii margin ier).n_vars - 1 ≠ 2 * i := by omega
    have h2 : (init radii margin ier).n_vars - 1 ≠ 2 * i + 1 := by omega
    rw [if_pos hi2, if_neg h1, if_neg h2, if_pos rfl]
  · intro k hk heq c
    unfold jacPairs
    rw [if_pos hk]
    have hd : coord x (pairAt (init radii margin ier) k).1 -
        coord x (pairAt (init radii margin ier) k).2 = ((0 : ℝ), (0 : ℝ)) := by
      rw [heq, sub_self]
      rfl
    rw [hd]
    simp only [scaledDir1_zero, scaledDir2_zero, neg_zero]
    split_ifs <;> rfl
  · intro i hi hzero c
    have hi2 : i < (init radii margin ier).n := hi
    unfold jacInnerHole
    by_cases h0 : (init radii margin ier).inner_exclusion_radius ≤ 0 ∨
        (init radii margin ier).n = 0
    · rw [if_pos h0]
    · rw [if_neg h0, if_pos hi2, hzero]
      simp only [scaledDir1_zero, scaledDir2_zero]
      split_ifs <;> rfl

/-- Witness for C7: two unit disks on the zero decision vector; the outer
Jacobian keeps its unit entry in the R column of row 0. -/
theorem jacobian_degenerate_zero_guard_witness :
    0 < ([1, 1] : List ℚ).length ∧
    jacOuter (init [1, 1] 0 0) (List.replicate 5 (0 : ℝ)) 0
      ((init [1, 1] 0 0).n_vars - 1) = 1 :=
  ⟨by decide,
    (jacobian_degenerate_zero_guard [1, 1] 0 0 (List.replicate 5 (0 : ℝ))).2.1 0 (by decide)⟩

end WireBundle
